import Mathlib

/-!
Verification of the asset-build utility (`src/assets/build.py`).

The script has three routines:
* `build_hicolor_set` — renders one vector icon at a fixed list of pixel
  sizes into `<size>x<size>/apps/<name>.png` and copies the vector into
  `scalable/apps/<name>.svg`;
* `build_rgba` — converts a raster image to 4-channel RGBA and dumps the
  raw byte buffer;
* `build_icons_font` — packs a directory of `*.svg` glyph files into a
  font, assigning code point `0xE000 + i` to the `i`-th listed file, and
  emits a generated Rust source file with an enum and an accessor.

The external libraries (ffmpeg, PIL, fontforge) are black boxes; they are
modelled by universally quantified rendering/decoding functions or by
abstract byte contents.  Filesystem paths are modelled as lists of path
components, file contents as lists of bytes, and the filesystem as a map
from paths to optional contents.  The Python primitives str.title, the
split on dash, and pathlib stem are embedded for ASCII strings, which
covers all inputs the build uses.
-/

namespace Akron

/-! ### String helpers mirroring the Python primitives -/

def dotChar : Char := Char.ofNat 46

def dashChar : Char := Char.ofNat 45

def svgExt : String := ".svg"

def pngExt : String := ".png"

/-- One step of Python `str.title`: a cased (here: ASCII alphabetic)
character is uppercased when the previous character was not alphabetic and
lowercased otherwise; other characters pass through and reset the word. -/
def pyTitleGo : Bool → List Char → List Char
  | _, [] => []
  | prevAlpha, c :: cs =>
    if c.isAlpha then
      (if prevAlpha then c.toLower else c.toUpper) :: pyTitleGo true cs
    else
      c :: pyTitleGo false cs

/-- Python `str.title()` restricted to ASCII letters. -/
def pyTitle (s : String) : String := ⟨pyTitleGo false s.data⟩

/-- Scan a reversed character list for the first dot (the last dot of the
original string); return the characters before it (still reversed) when the
dot is at a positive index, i.e. the remainder is non-empty. -/
def stripRevAux : List Char → Option (List Char)
  | [] => none
  | c :: rest =>
    if c = dotChar then (if rest.isEmpty then none else some rest)
    else stripRevAux rest

/-- Embeds pathlib stem on a single path component: the component
without its suffix, where the suffix starts at the last dot provided that
dot is neither the first nor the last character. -/
def stemOf (s : String) : String :=
  match s.data.reverse with
  | [] => s
  | c :: rest =>
    if c = dotChar then s
    else
      match stripRevAux rest with
      | some r => ⟨r.reverse⟩
      | none => s

/-- Tests that `s` ends with `t` (Python endswith, which is the
fixed-suffix part of fnmatch for a pattern of shape star-dot-ext). -/
def strEndsWith (s t : String) : Bool := t.data.isSuffixOf s.data

/-! ### Font packager (`build_icons_font`)

The glob call on the icons directory yields the entries whose name
matches the pattern star-dot-svg, in directory listing order.  We model the directory listing as a
list of file names (in that order) and glob as the filter keeping names
that end in `.svg`. -/

def globSvg (listing : List String) : List String :=
  listing.filter (fun f => strEndsWith f svgExt)

/-- Python split on dash: split at every dash, keeping empty segments;
`acc` holds the current segment reversed. -/
def splitDashGo (acc : List Char) : List Char → List (List Char)
  | [] => [acc.reverse]
  | c :: cs =>
    if c = dashChar then acc.reverse :: splitDashGo [] cs
    else splitDashGo (c :: acc) cs

def splitDash (s : String) : List String :=
  (splitDashGo [] s.data).map String.mk

/-- Embeds the name derivation of the source: the stem of the file name,
split on dashes, each segment title-cased, all joined. -/
def deriveName (fname : String) : String :=
  String.join ((splitDash (stemOf fname)).map pyTitle)

/-- The `icons` list built by the loop: for the `i`-th globbed file,
the pair of its derived name and code point `0xE000 + i`. -/
def iconsOf (listing : List String) : List (String × Nat) :=
  (globSvg listing).enum.map (fun p => (deriveName p.2, 0xE000 + p.1))

/-- A glyph created in the font: its code point, the source file whose
outlines were imported, and its advance width. -/
structure FontGlyph where
  codepoint : Nat
  outlinesSrc : String
  width : Nat
  deriving Repr, DecidableEq

/-- The glyphs created by the loop, in creation order. -/
def fontGlyphsOf (listing : List String) : List FontGlyph :=
  (globSvg listing).enum.map (fun p => ⟨0xE000 + p.1, p.2, 1000⟩)

/-- The font object as configured by `build_icons_font`. -/
structure FontBuild where
  fontname : String
  familyname : String
  fullname : String
  em : Nat
  glyphs : List FontGlyph
  deriving Repr, DecidableEq

def buildFont (fontName : String) (listing : List String) : FontBuild :=
  ⟨fontName, fontName, fontName, 1000, fontGlyphsOf listing⟩

/-! ### The generated Rust source (`rs_path`) -/

/-- The sixteen uppercase hexadecimal digit characters. -/
def hexAlphabet : String := "0123456789ABCDEF"

/-- Uppercase hexadecimal digit character for digit value `d`. -/
def hexDigitChar (d : Nat) : Char :=
  hexAlphabet.data.getD d dotChar

/-- Big-endian uppercase hexadecimal digits of `n` (empty for `0`). -/
def toHexChars (n : Nat) : List Char :=
  ((Nat.digits 16 n).map hexDigitChar).reverse

/-- Python `f"{n:04X}"`: uppercase hex, left-padded with zeros to width 4. -/
def hex4 (n : Nat) : String :=
  ⟨List.replicate (4 - (toHexChars n).length) (hexDigitChar 0) ++ toHexChars n⟩

def fontConstPre : String := "pub const FONT: iced::Font = iced::Font::with_name(\""

def fontConstPost : String := "\");\n"

def enumOpen : String := "pub enum Icon \x7b\n"

def closeBraceNl : String := "\x7d\n"

def implOpen : String := "impl Icon \x7b\n"

def asCharOpen : String := "    pub fn as_char(&self) -> char \x7b\n"

def matchOpen : String := "        match self \x7b\n"

def matchClose : String := "        \x7d\n"

def fnClose : String := "    \x7d\n"

def ind4 : String := "    "

def commaNl : String := ",\n"

/-- Embeds the enum case line: four spaces, the name, a comma, a
newline. -/
def enumCaseLine (p : String × Nat) : String := ind4 ++ p.1 ++ commaNl

def armPre : String := "            Icon::"

def armMid : String := " => \x27\\u\x7b"

def armPost : String := "\x7d\x27,\n"

/-- Embeds the accessor match arm line: twelve spaces, the qualified
variant name, an arrow, and the code point as a backslash-u character
literal with four uppercase hex digits in braces. -/
def matchArmLine (p : String × Nat) : String :=
  armPre ++ p.1 ++ armMid ++ hex4 p.2 ++ armPost

/-- The full text written to `rs_path`, concatenating the writes in
`build_icons_font` in order. -/
def rsContent (fontName : String) (icons : List (String × Nat)) : String :=
  fontConstPre ++ fontName ++ fontConstPost
  ++ enumOpen
  ++ String.join (icons.map enumCaseLine)
  ++ closeBraceNl
  ++ implOpen
  ++ asCharOpen
  ++ matchOpen
  ++ String.join (icons.map matchArmLine)
  ++ matchClose
  ++ fnClose
  ++ closeBraceNl

/-- Everything `build_icons_font` produces from the font name and the
directory listing: the configured font and the generated source text. -/
def buildIconsFont (fontName : String) (listing : List String) :
    FontBuild × String :=
  (buildFont fontName listing, rsContent fontName (iconsOf listing))

/-! ### Rasterizer (`build_hicolor_set`)

Paths are lists of components, file contents are byte lists, and the
filesystem is a partial map from paths to contents together with the set
of directories created so far.  The ffmpeg scale-and-encode pipeline is a
black box, modelled by an arbitrary function from the target width and
height and the source bytes to the produced PNG bytes. -/

abbrev FilePath := List String

abbrev Bytes := List Nat

/-- The filesystem operations `build_hicolor_set` performs, in order. -/
inductive FsOp where
  | mkdirP (dir : FilePath)
  | render (src : FilePath) (w h : Nat) (dst : FilePath)
  | copy2 (src dst : FilePath)
  deriving Repr, DecidableEq

structure FsState where
  files : FilePath → Option Bytes
  dirs : List FilePath

/-- Effect of one operation.  `mkdir(parents=True, exist_ok=True)` records
the directory; rendering reads the source and overwrites the destination;
`shutil.copy2` overwrites the destination with the source's bytes. -/
def applyOp (render : Nat → Nat → Bytes → Bytes) (st : FsState) :
    FsOp → FsState
  | FsOp.mkdirP d => { st with dirs := d :: st.dirs }
  | FsOp.render src w h dst =>
      { st with
        files := fun q =>
          if q = dst then (st.files src).map (render w h) else st.files q }
  | FsOp.copy2 src dst =>
      { st with
        files := fun q => if q = dst then st.files src else st.files q }

def runOps (render : Nat → Nat → Bytes → Bytes) (st : FsState)
    (ops : List FsOp) : FsState :=
  ops.foldl (applyOp render) st

/-- The operation writes no file content at path `q`. -/
def avoidsFile (q : FilePath) : FsOp → Prop
  | FsOp.mkdirP _ => True
  | FsOp.render _ _ _ dst => dst ≠ q
  | FsOp.copy2 _ dst => dst ≠ q

/-- The operation does not create the directory `d`. -/
def avoidsDir (d : FilePath) : FsOp → Prop
  | FsOp.mkdirP d0 => d0 ≠ d
  | FsOp.render _ _ _ _ => True
  | FsOp.copy2 _ _ => True

/-- The size list exactly as written in the source. -/
def sizes : List Nat :=
  [128, 150, 16, 192, 22, 24, 256, 310, 32, 36, 44, 48, 512, 64, 72, 96]

def xStr : String := "x"

def appsStr : String := "apps"

def scalableStr : String := "scalable"

/-- Embeds the size directory name: the size, the letter x, the size. -/
def sizeDirName (size : Nat) : String :=
  Nat.repr size ++ xStr ++ Nat.repr size

/-- Last component of a path (`Path.name`), empty for the empty path. -/
def lastComponent (p : FilePath) : String :=
  p.getLastD (String.mk [])

/-- Embeds the per-size output directory, size-x-size slash apps. -/
def sizeDir (outputDir : FilePath) (size : Nat) : FilePath :=
  outputDir ++ [sizeDirName size, appsStr]

/-- Embeds the scalable output directory, scalable slash apps. -/
def scalableDir (outputDir : FilePath) : FilePath :=
  outputDir ++ [scalableStr, appsStr]

/-- Destination of the scalable copy: `scalable/apps/<stem>.svg`. -/
def scalableDst (svgPath outputDir : FilePath) : FilePath :=
  scalableDir outputDir ++ [stemOf (lastComponent svgPath) ++ svgExt]

/-- The operation sequence of `build_hicolor_set`: for each size (in the
source's order) make the size directory and render into it, then make the
scalable directory and copy the vector file. -/
def buildHicolorOps (svgPath outputDir : FilePath) : List FsOp :=
  (sizes.flatMap (fun size =>
    [FsOp.mkdirP (sizeDir outputDir size),
     FsOp.render svgPath size size
       (sizeDir outputDir size
         ++ [stemOf (lastComponent svgPath) ++ pngExt])]))
  ++ [FsOp.mkdirP (scalableDir outputDir),
      FsOp.copy2 svgPath (scalableDst svgPath outputDir)]

/-- The render operations of an operation list: (width, height, output). -/
def renderTargets (ops : List FsOp) : List (Nat × Nat × FilePath) :=
  ops.filterMap (fun op =>
    match op with
    | FsOp.render _ w h dst => some (w, h, dst)
    | _ => none)

/-! ### Pixel extractor (`build_rgba`)

The PIL conversion to RGBA yields an image whose pixels are 4-tuples of
bytes; `tobytes()` flattens them in order with no header.  The decoder is
a black box, so the model starts from an already-converted RGBA image. -/

structure RGBAImage where
  width : Nat
  height : Nat
  pixels : List (Nat × Nat × Nat × Nat)
  size_eq : pixels.length = width * height

/-- Embeds tobytes on an RGBA image: each pixel contributes its four
channel bytes, row-major, with no header or dimension metadata. -/
def tobytes (img : RGBAImage) : Bytes :=
  img.pixels.flatMap (fun p => [p.1, p.2.1, p.2.2.1, p.2.2.2])

/-- Embeds build_rgba: the filesystem after writing the raw buffer to
the destination in write-binary mode (truncate/overwrite). -/
def buildRgbaRun (fs : FilePath → Option Bytes) (img : RGBAImage)
    (dst : FilePath) : FilePath → Option Bytes :=
  fun q => if q = dst then some (tobytes img) else fs q

/-- The size set named by the specification, in ascending order. -/
def specSizes : List Nat :=
  [16, 22, 24, 32, 36, 44, 48, 64, 72, 96, 128, 150, 192, 256, 310, 512]

/-- A one-by-one RGBA image with a single opaque white pixel. -/
def oneWhitePixel : RGBAImage := ⟨1, 1, [(255, 255, 255, 255)], rfl⟩

/-! ### Concrete file names used in the claims -/

def akronSvg : String := "akron.svg"

def akronRgba : String := "akron.rgba"

def hicolorStr : String := "hicolor"

def arrowLeftSvg : String := "arrow-left.svg"

def arrowRightSvg : String := "arrow-right.svg"

def arrowLeftCapSvg : String := "Arrow-Left.svg"

def notesTxt : String := "notes.txt"

def arrowLeftName : String := "ArrowLeft"

def arrowRightName : String := "ArrowRight"

/-- The font name the driver passes to `build_icons_font`. -/
def iconsFontName : String := "icons"

end Akron

open Akron

/-! ### Shared lemmas -/

/-- The second components of the `icons` list are `0xE000, 0xE001, …`. -/
theorem iconsOf_map_snd (listing : List String) :
    (iconsOf listing).map Prod.snd =
      (List.range (globSvg listing).length).map (fun j => 0xE000 + j) := by
  simp only [iconsOf, List.map_map]
  have h : (Prod.snd ∘ fun p : Nat × String =>
      (deriveName p.2, 0xE000 + p.1)) = (fun j => 0xE000 + j) ∘ Prod.fst :=
    rfl
  rw [h, ← List.map_map, List.enum_map_fst]

/-- Injectivity of `hexDigitChar` on digit values below 16. -/
theorem hexDigitChar_inj_mem :
    ∀ a ∈ List.range 16, ∀ b ∈ List.range 16,
      hexDigitChar a = hexDigitChar b → a = b := by decide

/-- Mapping `hexDigitChar` over lists of hexadecimal digits is injective. -/
theorem map_hexDigitChar_inj :
    ∀ l₁ l₂ : List Nat, (∀ d ∈ l₁, d < 16) → (∀ d ∈ l₂, d < 16) →
      l₁.map hexDigitChar = l₂.map hexDigitChar → l₁ = l₂ := by
  intro l₁
  induction l₁ with
  | nil => intro l₂ _ _ h; cases l₂ <;> simp_all
  | cons a t ih =>
    intro l₂ h₁ h₂ h
    cases l₂ with
    | nil => simp_all
    | cons b t₂ =>
      simp only [List.map_cons, List.cons.injEq] at h
      have ha : a ∈ List.range 16 :=
        List.mem_range.2 (h₁ a (List.mem_cons_self a t))
      have hb : b ∈ List.range 16 :=
        List.mem_range.2 (h₂ b (List.mem_cons_self b t₂))
      have hab := hexDigitChar_inj_mem a ha b hb h.1
      have ht := ih t₂ (fun d hd => h₁ d (List.mem_cons_of_mem a hd))
        (fun d hd => h₂ d (List.mem_cons_of_mem b hd)) h.2
      rw [hab, ht]

/-- For values of at least `0x1000` the base-16 representation has at
least four digits, so Python's `04X` padding adds nothing. -/
theorem toHexChars_length_ge (n : Nat) (h : 4096 ≤ n) :
    4 ≤ (toHexChars n).length := by
  by_contra hlt
  push_neg at hlt
  have hb : (1 : ℕ) < 16 := by norm_num
  have hpow := Nat.lt_base_pow_length_digits (b := 16) (m := n) hb
  have hlen : (Nat.digits 16 n).length ≤ 3 := by
    have : (toHexChars n).length = (Nat.digits 16 n).length := by
      simp [toHexChars]
    omega
  have : n < 16 ^ 3 :=
    lt_of_lt_of_le hpow (Nat.pow_le_pow_right (by norm_num) hlen)
  omega

/-- Injectivity of `hex4` at or above `0x1000` (in particular on the
private-use code points `0xE000 + i`). -/
theorem hex4_inj_of_ge (m n : Nat) (hm : 4096 ≤ m) (hn : 4096 ≤ n)
    (h : hex4 m = hex4 n) : m = n := by
  have hm4 := toHexChars_length_ge m hm
  have hn4 := toHexChars_length_ge n hn
  have hdata := congrArg String.data h
  simp only [hex4] at hdata
  rw [show 4 - (toHexChars m).length = 0 by omega,
      show 4 - (toHexChars n).length = 0 by omega] at hdata
  simp only [List.replicate_zero, List.nil_append] at hdata
  have hmap : (Nat.digits 16 m).map hexDigitChar =
      (Nat.digits 16 n).map hexDigitChar := by
    have := congrArg List.reverse hdata
    simpa [toHexChars] using this
  have hdig := map_hexDigitChar_inj (Nat.digits 16 m) (Nat.digits 16 n)
    (fun d hd => Nat.digits_lt_base (by norm_num) hd)
    (fun d hd => Nat.digits_lt_base (by norm_num) hd) hmap
  exact Nat.digits_inj_iff.1 hdig

/-- Claim C1: the glyph files with the `.svg` extension are iterated in the
glyph directory's listing order, the `i`-th matched file being assigned
code point `0xE000 + i`; hence the assigned code points are exactly the
contiguous range starting at `0xE000`. -/
theorem claim_C1_codepoints_sequential (listing : List String) (i : Nat) :
    (iconsOf listing)[i]? =
      ((globSvg listing)[i]?).map (fun f => (deriveName f, 0xE000 + i))
    ∧ (iconsOf listing).map Prod.snd =
      (List.range (globSvg listing).length).map (fun j => 0xE000 + j) := by
  constructor
  · simp only [iconsOf, List.getElem?_map, List.getElem?_enum]
    cases (globSvg listing)[i]? <;> rfl
  · exact iconsOf_map_snd listing

/-- Claim C2: the derived variant name is the filename with its extension
stripped, split on dashes, each segment title-cased, concatenated; for a
listing `arrow-left.svg` then `arrow-right.svg` the enumeration holds
exactly `ArrowLeft ↦ 0xE000` and `ArrowRight ↦ 0xE001`. -/
theorem claim_C2_derived_names :
    (∀ fname : String, deriveName fname =
      String.join ((splitDash (stemOf fname)).map pyTitle))
    ∧ deriveName arrowLeftSvg = arrowLeftName
    ∧ deriveName arrowRightSvg = arrowRightName
    ∧ iconsOf [arrowLeftSvg, arrowRightSvg] =
      [(arrowLeftName, 0xE000), (arrowRightName, 0xE001)] := by
  refine ⟨fun fname => rfl, by decide, by decide, by decide⟩

/-- Claim C6: an empty glob result is not an error: the generated source
still consists of the fixed template with an empty enumeration and an
empty match, and the font contains no imported glyphs. -/
theorem claim_C6_empty_dir (fontName : String) (listing : List String)
    (h : globSvg listing = []) :
    iconsOf listing = []
    ∧ (buildIconsFont fontName listing).1.glyphs = []
    ∧ (buildIconsFont fontName listing).2 =
      fontConstPre ++ fontName ++ fontConstPost ++ enumOpen ++ closeBraceNl
        ++ implOpen ++ asCharOpen ++ matchOpen ++ matchClose ++ fnClose
        ++ closeBraceNl := by
  have hi : iconsOf listing = [] := by simp [iconsOf, h]
  refine ⟨hi, ?_, ?_⟩
  · simp [buildIconsFont, buildFont, fontGlyphsOf, h]
  · simp [buildIconsFont, rsContent, hi, String.join]

/-- Witness for C6 at the empty listing and the driver's font name. -/
theorem claim_C6_empty_dir_witness :
    iconsOf [] = []
    ∧ (buildIconsFont iconsFontName []).1.glyphs = []
    ∧ (buildIconsFont iconsFontName []).2 =
      fontConstPre ++ iconsFontName ++ fontConstPost ++ enumOpen
        ++ closeBraceNl ++ implOpen ++ asCharOpen ++ matchOpen ++ matchClose
        ++ fnClose ++ closeBraceNl :=
  claim_C6_empty_dir iconsFontName [] rfl

/-- Claim C7: colliding derived names are not guarded against: with the
listing `arrow-left.svg`, `Arrow-Left.svg` both files derive the name
`ArrowLeft`, and the generated enumeration and accessor contain one case
and one match arm per file, the variant name duplicated. -/
theorem claim_C7_name_collision :
    deriveName arrowLeftSvg = deriveName arrowLeftCapSvg
    ∧ iconsOf [arrowLeftSvg, arrowLeftCapSvg] =
      [(arrowLeftName, 0xE000), (arrowLeftName, 0xE001)]
    ∧ (iconsOf [arrowLeftSvg, arrowLeftCapSvg]).map enumCaseLine =
      [ind4 ++ arrowLeftName ++ commaNl, ind4 ++ arrowLeftName ++ commaNl]
    ∧ (iconsOf [arrowLeftSvg, arrowLeftCapSvg]).map matchArmLine =
      [armPre ++ arrowLeftName ++ armMid ++ hex4 0xE000 ++ armPost,
       armPre ++ arrowLeftName ++ armMid ++ hex4 0xE001 ++ armPost]
    ∧ (∀ l : List String, (iconsOf l).length = (globSvg l).length) := by
  refine ⟨by decide, by decide, by decide, ?_, fun l => ?_⟩
  · rw [show iconsOf [arrowLeftSvg, arrowLeftCapSvg] =
      [(arrowLeftName, 0xE000), (arrowLeftName, 0xE001)] from by decide]
    rfl
  · simp [iconsOf]

/-- Claim C8: the outputs of `build_icons_font` are a deterministic
function of the font name and the globbed file names in order: two
listings with the same glob result give identical font configuration,
identical generated source text, and the same name-to-code-point list. -/
theorem claim_C8_deterministic (fontName : String) (l₁ l₂ : List String)
    (h : globSvg l₁ = globSvg l₂) :
    buildIconsFont fontName l₁ = buildIconsFont fontName l₂
    ∧ iconsOf l₁ = iconsOf l₂ := by
  have hi : iconsOf l₁ = iconsOf l₂ := by simp [iconsOf, h]
  exact ⟨by simp [buildIconsFont, buildFont, fontGlyphsOf, h, hi], hi⟩

/-- Witness for C8: a listing with an extra non-`.svg` entry globs the
same and yields the same outputs. -/
theorem claim_C8_deterministic_witness :
    buildIconsFont iconsFontName [arrowLeftSvg, notesTxt] =
      buildIconsFont iconsFontName [arrowLeftSvg]
    ∧ iconsOf [arrowLeftSvg, notesTxt] = iconsOf [arrowLeftSvg] :=
  claim_C8_deterministic iconsFontName [arrowLeftSvg, notesTxt]
    [arrowLeftSvg] (by decide)

/-- Claim C10: the code points assigned in one run are pairwise distinct,
and so are the 4-hex-digit character literals in the generated accessor,
even when derived variant names collide. -/
theorem claim_C10_distinct_codepoints (listing : List String) :
    ((iconsOf listing).map Prod.snd).Nodup
    ∧ ((iconsOf listing).map (fun p => hex4 p.2)).Nodup := by
  have hsnd := iconsOf_map_snd listing
  have hnd : ((List.range (globSvg listing).length).map
      (fun j => 0xE000 + j)).Nodup :=
    List.Nodup.map (fun a b hab => by omega)
      (List.nodup_range (globSvg listing).length)
  constructor
  · rw [hsnd]
    exact hnd
  · have hmap : (iconsOf listing).map (fun p => hex4 p.2) =
        ((iconsOf listing).map Prod.snd).map hex4 := by
      simp [List.map_map]
    rw [hmap, hsnd]
    refine List.Nodup.map_on ?_ hnd
    intro x hx y hy hxy
    simp only [List.mem_map, List.mem_range] at hx hy
    obtain ⟨i, _, hi⟩ := hx
    obtain ⟨j, _, hj⟩ := hy
    exact hex4_inj_of_ge x y (by omega) (by omega) hxy

/-! ### Lemmas about path suffixes and preservation under operations -/

/-- A string obtained by appending an extension ends with that extension. -/
theorem strEndsWith_append (s t : String) : strEndsWith (s ++ t) t = true := by
  obtain ⟨a⟩ := s
  obtain ⟨b⟩ := t
  have hd : (String.mk a ++ String.mk b).data = a ++ b := rfl
  simp only [strEndsWith, hd]
  exact List.isSuffixOf_iff_suffix.2 (List.suffix_append a b)

/-- Two suffixes of the same string with the same length coincide. -/
theorem suffix_eq_of_length (l s₁ s₂ : List Char) (h₁ : s₁ <:+ l)
    (h₂ : s₂ <:+ l) (h : s₁.length = s₂.length) : s₁ = s₂ := by
  rw [List.suffix_iff_eq_drop.1 h₁, List.suffix_iff_eq_drop.1 h₂, h]

/-- A name carrying the `.svg` extension does not end in `.png`. -/
theorem svg_not_png (s : String) :
    strEndsWith (s ++ svgExt) pngExt = false := by
  by_contra hne
  have ht : strEndsWith (s ++ svgExt) pngExt = true := by
    cases hb : strEndsWith (s ++ svgExt) pngExt
    · exact absurd hb hne
    · rfl
  have hp : pngExt.data <:+ (s ++ svgExt).data :=
    List.isSuffixOf_iff_suffix.1 ht
  have hs : svgExt.data <:+ (s ++ svgExt).data := by
    have := strEndsWith_append s svgExt
    exact List.isSuffixOf_iff_suffix.1 this
  have : pngExt.data = svgExt.data :=
    suffix_eq_of_length _ _ _ hp hs (by decide)
  exact absurd this (by decide)

/-- The last component of a path extended by one component. -/
theorem lastComponent_concat (p : FilePath) (x : String) :
    lastComponent (p ++ [x]) = x := by
  simp [lastComponent, List.getLastD_concat]

/-- Running operations that never write to `q` leaves `q`'s content. -/
theorem runOps_files_preserved (render : Nat → Nat → Bytes → Bytes)
    (ops : List FsOp) (q : FilePath)
    (h : ∀ op ∈ ops, avoidsFile q op) :
    ∀ st : FsState, (runOps render st ops).files q = st.files q := by
  induction ops with
  | nil => intro st; rfl
  | cons op t ih =>
    intro st
    have hstep : runOps render st (op :: t) =
        runOps render (applyOp render st op) t := rfl
    rw [hstep, ih fun o ho => h o (List.mem_cons_of_mem op ho)]
    have hop := h op (List.mem_cons_self op t)
    cases op with
    | mkdirP d => rfl
    | render src w hh dst =>
      have hne : dst ≠ q := hop
      simp only [applyOp]
      rw [if_neg (fun hqd => hne hqd.symm)]
    | copy2 src dst =>
      have hne : dst ≠ q := hop
      simp only [applyOp]
      rw [if_neg (fun hqd => hne hqd.symm)]

/-- Running operations that never create directory `d` leaves whether `d`
exists unchanged. -/
theorem runOps_dirs_preserved (render : Nat → Nat → Bytes → Bytes)
    (ops : List FsOp) (d : FilePath)
    (h : ∀ op ∈ ops, avoidsDir d op) :
    ∀ st : FsState, (d ∈ (runOps render st ops).dirs ↔ d ∈ st.dirs) := by
  induction ops with
  | nil => intro st; exact Iff.rfl
  | cons op t ih =>
    intro st
    have hstep : runOps render st (op :: t) =
        runOps render (applyOp render st op) t := rfl
    rw [hstep, ih fun o ho => h o (List.mem_cons_of_mem op ho)]
    have hop := h op (List.mem_cons_self op t)
    cases op with
    | mkdirP d0 =>
      have hne : d0 ≠ d := hop
      simp only [applyOp, List.mem_cons]
      exact ⟨fun hc => hc.elim (fun he => absurd he.symm hne) id, Or.inr⟩
    | render src w hh dst => exact Iff.rfl
    | copy2 src dst => exact Iff.rfl

/-- Every operation in the per-size part of `build_hicolor_set` is a
directory creation for a size directory or a render into it. -/
theorem renderPhase_ops (svgPath outputDir : FilePath)
    (op : FsOp)
    (hop : op ∈ sizes.flatMap (fun size =>
      [FsOp.mkdirP (sizeDir outputDir size),
       FsOp.render svgPath size size
         (sizeDir outputDir size
           ++ [stemOf (lastComponent svgPath) ++ pngExt])])) :
    (∃ s ∈ sizes, op = FsOp.mkdirP (sizeDir outputDir s))
    ∨ (∃ s ∈ sizes, op = FsOp.render svgPath s s
        (sizeDir outputDir s
          ++ [stemOf (lastComponent svgPath) ++ pngExt])) := by
  rw [List.mem_flatMap] at hop
  obtain ⟨s, hs, hmem⟩ := hop
  simp only [List.mem_cons, List.not_mem_nil, or_false] at hmem
  rcases hmem with h1 | h1
  · exact Or.inl ⟨s, hs, h1⟩
  · exact Or.inr ⟨s, hs, h1⟩

/-- The render targets of `build_hicolor_set`: one per size in the
source's order, square, at `<size>x<size>/apps/<stem>.png`. -/
theorem renderTargets_eq (svgPath outputDir : FilePath) :
    renderTargets (buildHicolorOps svgPath outputDir) =
      sizes.map (fun s => (s, s,
        sizeDir outputDir s
          ++ [stemOf (lastComponent svgPath) ++ pngExt])) := rfl

/-- No operation of the per-size phase writes to a file whose last
component does not end in `.png`. -/
theorem renderPhase_no_touch (svgPath outputDir q : FilePath)
    (hq : strEndsWith (lastComponent q) pngExt = false)
    (op : FsOp)
    (hop : op ∈ sizes.flatMap (fun size =>
      [FsOp.mkdirP (sizeDir outputDir size),
       FsOp.render svgPath size size
         (sizeDir outputDir size
           ++ [stemOf (lastComponent svgPath) ++ pngExt])])) :
    avoidsFile q op := by
  rcases renderPhase_ops svgPath outputDir op hop with ⟨s, _, rfl⟩ | ⟨s, _, rfl⟩
  · trivial
  · intro hdst
    have hlast : lastComponent q =
        stemOf (lastComponent svgPath) ++ pngExt := by
      rw [← hdst, lastComponent_concat]
    rw [hlast, strEndsWith_append] at hq
    simp at hq

/-- The scalable destination's name ends in `.svg`, not `.png`. -/
theorem scalableDst_not_png (svgPath outputDir : FilePath) :
    strEndsWith (lastComponent (scalableDst svgPath outputDir)) pngExt
      = false := by
  rw [scalableDst, lastComponent_concat]
  exact svg_not_png _

/-- Size directories are distinct from the scalable directory. -/
theorem sizeDir_ne_scalableDir (outputDir : FilePath) (s : Nat)
    (hs : s ∈ sizes) : sizeDir outputDir s ≠ scalableDir outputDir := by
  intro he
  have h2 : [sizeDirName s, appsStr] = [scalableStr, appsStr] :=
    List.append_cancel_left he
  have h3 : sizeDirName s = scalableStr := by
    simpa using congrArg (fun l => l.headD appsStr) h2
  exact (by decide : ∀ u ∈ sizes, sizeDirName u ≠ scalableStr) s hs h3

/-- Claim C3: one render per size, the sizes being exactly
{16,22,24,32,36,44,48,64,72,96,128,150,192,256,310,512}; each render is
square at its size and targets `<size>x<size>/apps/<stem>.png` under the
output root, whose directory is created by the run. -/
theorem claim_C3_raster_outputs (svgPath outputDir : FilePath)
    (t : Nat × Nat × FilePath)
    (ht : t ∈ renderTargets (buildHicolorOps svgPath outputDir)) :
    ((renderTargets (buildHicolorOps svgPath outputDir)).map
        (fun u => u.1)).Perm specSizes
    ∧ ((renderTargets (buildHicolorOps svgPath outputDir)).map
        (fun u => u.1)).Nodup
    ∧ t.2.1 = t.1
    ∧ t.2.2 = sizeDir outputDir t.1
        ++ [stemOf (lastComponent svgPath) ++ pngExt]
    ∧ FsOp.mkdirP (sizeDir outputDir t.1) ∈
        buildHicolorOps svgPath outputDir := by
  have hfst : ((renderTargets (buildHicolorOps svgPath outputDir)).map
      (fun u => u.1)) = sizes := by
    rw [renderTargets_eq, List.map_map]
    exact List.map_id sizes
  rw [renderTargets_eq] at ht
  obtain ⟨s, hs, rfl⟩ := List.mem_map.1 ht
  refine ⟨?_, ?_, rfl, rfl, ?_⟩
  · rw [hfst]; decide
  · rw [hfst]; decide
  · rw [buildHicolorOps, List.mem_append, List.mem_flatMap]
    exact Or.inl ⟨s, hs, List.mem_cons_self _ _⟩

/-- Witness for C3 at the driver's inputs and the 128-pixel target. -/
theorem claim_C3_raster_outputs_witness :
    ((renderTargets (buildHicolorOps [akronSvg] [hicolorStr])).map
        (fun u => u.1)).Perm specSizes
    ∧ ((renderTargets (buildHicolorOps [akronSvg] [hicolorStr])).map
        (fun u => u.1)).Nodup
    ∧ ((128 : Nat), (128 : Nat), sizeDir [hicolorStr] 128
        ++ [stemOf (lastComponent [akronSvg]) ++ pngExt]).2.1
      = ((128 : Nat), (128 : Nat), sizeDir [hicolorStr] 128
        ++ [stemOf (lastComponent [akronSvg]) ++ pngExt]).1
    ∧ ((128 : Nat), (128 : Nat), sizeDir [hicolorStr] 128
        ++ [stemOf (lastComponent [akronSvg]) ++ pngExt]).2.2
      = sizeDir [hicolorStr]
          ((128 : Nat), (128 : Nat), sizeDir [hicolorStr] 128
            ++ [stemOf (lastComponent [akronSvg]) ++ pngExt]).1
        ++ [stemOf (lastComponent [akronSvg]) ++ pngExt]
    ∧ FsOp.mkdirP (sizeDir [hicolorStr]
        ((128 : Nat), (128 : Nat), sizeDir [hicolorStr] 128
          ++ [stemOf (lastComponent [akronSvg]) ++ pngExt]).1) ∈
        buildHicolorOps [akronSvg] [hicolorStr] :=
  claim_C3_raster_outputs [akronSvg] [hicolorStr] _ (by decide)

/-- Claim C4: the run copies the input vector byte-identically to
`scalable/apps/<stem>.svg` and leaves the input file unmodified (the
input is not a `.png`, so no render writes over it). -/
theorem claim_C4_scalable_copy (render : Nat → Nat → Bytes → Bytes)
    (st : FsState) (svgPath outputDir : FilePath)
    (h : strEndsWith (lastComponent svgPath) pngExt = false) :
    (runOps render st (buildHicolorOps svgPath outputDir)).files
        (scalableDst svgPath outputDir) = st.files svgPath
    ∧ (runOps render st (buildHicolorOps svgPath outputDir)).files svgPath
      = st.files svgPath := by
  have hsplit : runOps render st (buildHicolorOps svgPath outputDir) =
      runOps render
        (runOps render st (sizes.flatMap (fun size =>
          [FsOp.mkdirP (sizeDir outputDir size),
           FsOp.render svgPath size size
             (sizeDir outputDir size
               ++ [stemOf (lastComponent svgPath) ++ pngExt])])))
        [FsOp.mkdirP (scalableDir outputDir),
         FsOp.copy2 svgPath (scalableDst svgPath outputDir)] := by
    rw [buildHicolorOps, runOps, List.foldl_append]
    rfl
  have hsvg : (runOps render st (sizes.flatMap (fun size =>
      [FsOp.mkdirP (sizeDir outputDir size),
       FsOp.render svgPath size size
         (sizeDir outputDir size
           ++ [stemOf (lastComponent svgPath) ++ pngExt])]))).files svgPath
      = st.files svgPath :=
    runOps_files_preserved render _ svgPath
      (fun op hop => renderPhase_no_touch svgPath outputDir svgPath h op hop)
      st
  rw [hsplit]
  constructor
  · show (if scalableDst svgPath outputDir = scalableDst svgPath outputDir
      then _ else _) = st.files svgPath
    rw [if_pos rfl]
    exact hsvg
  · show (if svgPath = scalableDst svgPath outputDir
      then _ else _) = st.files svgPath
    rw [ite_self]
    exact hsvg

/-- Witness for C4 at the driver's inputs and an empty filesystem. -/
theorem claim_C4_scalable_copy_witness :
    (runOps (fun _ _ b => b) ⟨fun _ => none, []⟩
        (buildHicolorOps [akronSvg] [hicolorStr])).files
        (scalableDst [akronSvg] [hicolorStr])
      = (⟨fun _ => none, []⟩ : FsState).files [akronSvg]
    ∧ (runOps (fun _ _ b => b) ⟨fun _ => none, []⟩
        (buildHicolorOps [akronSvg] [hicolorStr])).files [akronSvg]
      = (⟨fun _ => none, []⟩ : FsState).files [akronSvg] :=
  claim_C4_scalable_copy (fun _ _ b => b) ⟨fun _ => none, []⟩
    [akronSvg] [hicolorStr] (by decide)

/-- Claim C9: any prefix of the run cut during the per-size phase (the
first `2 · 16` operations) has neither created the scalable directory nor
written the scalable copy. -/
theorem claim_C9_scalable_after_renders (render : Nat → Nat → Bytes → Bytes)
    (st : FsState) (svgPath outputDir : FilePath) (k : Nat)
    (h : k ≤ 2 * sizes.length) :
    (runOps render st ((buildHicolorOps svgPath outputDir).take k)).files
        (scalableDst svgPath outputDir)
      = st.files (scalableDst svgPath outputDir)
    ∧ (scalableDir outputDir ∈
        (runOps render st ((buildHicolorOps svgPath outputDir).take k)).dirs
        ↔ scalableDir outputDir ∈ st.dirs) := by
  have hlen : (sizes.flatMap (fun size =>
      [FsOp.mkdirP (sizeDir outputDir size),
       FsOp.render svgPath size size
         (sizeDir outputDir size
           ++ [stemOf (lastComponent svgPath) ++ pngExt])])).length
      = 2 * sizes.length := rfl
  have htake : (buildHicolorOps svgPath outputDir).take k =
      (sizes.flatMap (fun size =>
        [FsOp.mkdirP (sizeDir outputDir size),
         FsOp.render svgPath size size
           (sizeDir outputDir size
             ++ [stemOf (lastComponent svgPath) ++ pngExt])])).take k := by
    rw [buildHicolorOps]
    exact List.take_append_of_le_length (by rw [hlen]; exact h)
  rw [htake]
  constructor
  · refine runOps_files_preserved render _ _ (fun op hop => ?_) st
    exact renderPhase_no_touch svgPath outputDir
      (scalableDst svgPath outputDir)
      (scalableDst_not_png svgPath outputDir) op
      ((List.take_sublist k _).mem hop)
  · refine runOps_dirs_preserved render _ _ (fun op hop => ?_) st
    have hmem := (List.take_sublist k _).mem hop
    rcases renderPhase_ops svgPath outputDir op hmem with
      ⟨s, hs, rfl⟩ | ⟨s, hs, rfl⟩
    · exact sizeDir_ne_scalableDir outputDir s hs
    · trivial

/-- Witness for C9: the prefix of all 32 per-size operations. -/
theorem claim_C9_scalable_after_renders_witness :
    (runOps (fun _ _ b => b) ⟨fun _ => none, []⟩
        ((buildHicolorOps [akronSvg] [hicolorStr]).take 32)).files
        (scalableDst [akronSvg] [hicolorStr])
      = (⟨fun _ => none, []⟩ : FsState).files
          (scalableDst [akronSvg] [hicolorStr])
    ∧ (scalableDir [hicolorStr] ∈
        (runOps (fun _ _ b => b) ⟨fun _ => none, []⟩
          ((buildHicolorOps [akronSvg] [hicolorStr]).take 32)).dirs
        ↔ scalableDir [hicolorStr] ∈
            (⟨fun _ => none, []⟩ : FsState).dirs) :=
  claim_C9_scalable_after_renders (fun _ _ b => b) ⟨fun _ => none, []⟩
    [akronSvg] [hicolorStr] 32 (by decide)

/-- Claim C5: `build_rgba` writes exactly the flattened 4-byte-per-pixel
buffer to the destination — `W · H · 4` bytes, no header — overwriting
whatever the destination held, and touches no other path. -/
theorem claim_C5_rgba_buffer (fs : FilePath → Option Bytes)
    (img : RGBAImage) (dst : FilePath) :
    buildRgbaRun fs img dst dst = some (tobytes img)
    ∧ (tobytes img).length = img.width * img.height * 4
    ∧ ∀ q, q ≠ dst → buildRgbaRun fs img dst q = fs q := by
  refine ⟨by simp [buildRgbaRun], ?_, fun q hq => by simp [buildRgbaRun, hq]⟩
  have h4 : ∀ pxs : List (Nat × Nat × Nat × Nat),
      (pxs.flatMap (fun p => [p.1, p.2.1, p.2.2.1, p.2.2.2])).length
        = 4 * pxs.length := by
    intro pxs
    induction pxs with
    | nil => rfl
    | cons p tl ih =>
      simp only [List.flatMap_cons, List.length_append, List.length_cons,
        List.length_nil, ih]
      omega
  rw [tobytes, h4, img.size_eq]
  ring

/-- Witness for C5 on a 1×1 image: 4 bytes at the destination, other
paths untouched. -/
theorem claim_C5_rgba_buffer_witness :
    buildRgbaRun (fun _ => none) oneWhitePixel [akronRgba] [akronRgba]
      = some (tobytes oneWhitePixel)
    ∧ (tobytes oneWhitePixel).length
      = oneWhitePixel.width * oneWhitePixel.height * 4
    ∧ buildRgbaRun (fun _ => none) oneWhitePixel [akronRgba] [akronSvg]
      = (fun _ => (none : Option Bytes)) [akronSvg] :=
  ⟨(claim_C5_rgba_buffer (fun _ => none) oneWhitePixel [akronRgba]).1,
   (claim_C5_rgba_buffer (fun _ => none) oneWhitePixel [akronRgba]).2.1,
   (claim_C5_rgba_buffer (fun _ => none) oneWhitePixel [akronRgba]).2.2
     [akronSvg] (by decide)⟩
